import Mathlib

/-!
Verification of the brand-mention detection pipeline of
`api-gemini-brand-checker` (an Express.js service).

The core logic lives in `utils/brandUtils.js` (shipped as
`dist/utils/brandUtils.js`): `levenshtein`, `extractTextFromApiResponse`,
`splitIntoItems` and `findBrandPositions`, plus the controller
(`controllers/checkController.js`) that assembles the final match result
and performs the provider-specific `candidates` extraction.

JavaScript strings are modelled as `List Char` (ASCII case mapping, which
covers the repository's matching semantics), JSON-ish dynamic values as an
inductive `JVal`, and code that can raise a `TypeError` (property access on
`null`/`undefined`) as computations in `Except Unit`.
-/

namespace BrandChecker

/-! ### Character classes used by the JS regexes -/

/-- JS `\s` as used by `split(/\s+/)`, `trim()` and `/^\s*(\d+)[\.)]\s*/`
(ASCII range: space, tab, newline, carriage return, vertical tab, form feed). -/
def isJsWs (c : Char) : Bool :=
  c = ' ' || c = '\t' || c = '\n' || c = '\r' || c = '\x0b' || c = '\x0c'

/-- Characters kept by `replace(/[^a-z0-9]/gi, '')` (the `i` flag also keeps
upper-case letters). -/
def isAsciiAlnum (c : Char) : Bool :=
  ('a' ≤ c && c ≤ 'z') || ('A' ≤ c && c ≤ 'Z') || ('0' ≤ c && c ≤ '9')

/-- JS regex `\w`, the word-character class underlying the `\b` anchor. -/
def isWordChar (c : Char) : Bool :=
  isAsciiAlnum c || c = '_'

/-- `String.prototype.toLowerCase` (ASCII fragment). -/
def lower (s : List Char) : List Char := s.map Char.toLower

/-- `t.replace(/[^a-z0-9]/gi, '')`: drop every non-alphanumeric character. -/
def cleanTok (s : List Char) : List Char := s.filter isAsciiAlnum

/-- `String.prototype.trim`: strip whitespace from both ends. -/
def trim (s : List Char) : List Char :=
  ((s.dropWhile isJsWs).reverse.dropWhile isJsWs).reverse

/-! ### The string splits of `brandUtils.js` -/

/-- `text.split(/\s+/)`: split on maximal whitespace runs.  `acc` is the
current field (reversed), `inSep` records that the previous character was
part of a whitespace run (JS merges a run into a single separator). -/
def splitWsAux : List Char → List Char → Bool → List (List Char)
  | [], acc, _ => [acc.reverse]
  | c :: rest, acc, inSep =>
    if isJsWs c then
      if inSep then splitWsAux rest acc true
      else acc.reverse :: splitWsAux rest [] true
    else splitWsAux rest (c :: acc) false

def splitWs (s : List Char) : List (List Char) := splitWsAux s [] false

/-- `text.split(/,|;|\n/)`-style split on single separator characters
(no run merging: adjacent separators yield empty fields). -/
def splitOnPred (p : Char → Bool) : List Char → List Char → List (List Char)
  | [], acc => [acc.reverse]
  | c :: rest, acc =>
    if p c then acc.reverse :: splitOnPred p rest []
    else splitOnPred p rest (c :: acc)

/-- `text.split(/\r?\n/)`: a separator is `"\r\n"` or `"\n"`; a lone `'\r'`
is ordinary text. -/
def splitLinesAux : List Char → List Char → List (List Char)
  | [], acc => [acc.reverse]
  | '\r' :: '\n' :: rest, acc => acc.reverse :: splitLinesAux rest []
  | '\n' :: rest, acc => acc.reverse :: splitLinesAux rest []
  | c :: rest, acc => splitLinesAux rest (c :: acc)

def splitLines (s : List Char) : List (List Char) := splitLinesAux s []

/-- Separator class of the fallback split `text.split(/,|;|\n/)`. -/
def isCommaSemiNl (c : Char) : Bool := c = ',' || c = ';' || c = '\n'

/-- The primary segmentation of `splitIntoItems`:
`text.split(/\r?\n/).map(l => l.trim()).filter(Boolean)`. -/
def lineItems (text : List Char) : List (List Char) :=
  ((splitLines text).map trim).filter (fun l => !l.isEmpty)

/-- The fallback segmentation of `splitIntoItems`:
`text.split(/,|;|\n/).map(l => l.trim()).filter(Boolean)`. -/
def commaItems (text : List Char) : List (List Char) :=
  ((splitOnPred isCommaSemiNl text []).map trim).filter (fun l => !l.isEmpty)

/-- `splitIntoItems(text)` from `utils/brandUtils.js`: empty text (falsy)
yields no items; otherwise split on line breaks, and if that leaves at most
one line re-split the original text on commas/semicolons/line breaks. -/
def splitIntoItems (text : List Char) : List (List Char) :=
  if text.isEmpty then []
  else
    let lines := lineItems text
    if lines.length ≤ 1 then commaItems text else lines

/-! ### Levenshtein distance (`levenshtein` in `brandUtils.js`)

The source fills a `(b.length+1) × (a.length+1)` matrix with
`matrix[0][i] = i`, `matrix[j][0] = j` and
`matrix[j][i] = min(matrix[j][i-1]+1, matrix[j-1][i]+1,
matrix[j-1][i-1]+cost)` where `cost` compares `a[i-1]` and `b[j-1]`
lower-cased.  `levMat a b j i` is `matrix[j][i]`; rows are built
structurally so the whole computation reduces in the kernel. -/

/-- Substitution cost of the matrix cell `matrix[j+1][i+1]`: compares
`a[i]` and `b[j]` case-insensitively (out-of-range reads never happen for
in-range cells; the default is irrelevant there). -/
def subCost (a b : List Char) (i j : Nat) : Nat :=
  if (a.getD i ' ').toLower = (b.getD j ' ').toLower then 0 else 1

/-- Row `j+1` of the matrix, given the previous row `f` as a function. -/
def levRowFn (a b : List Char) (j : Nat) (f : Nat → Nat) : Nat → Nat
  | 0 => j + 1
  | i + 1 =>
    min (levRowFn a b j f i + 1)
      (min (f (i + 1) + 1) (f i + subCost a b i j))

/-- `levMat a b j i = matrix[j][i]` of the source's dynamic program. -/
def levMat (a b : List Char) : Nat → Nat → Nat
  | 0 => fun i => i
  | j + 1 => levRowFn a b j (levMat a b j)

/-- `levenshtein(a, b)`: the guards `if (!a) return b.length` and
`if (!b) return a.length` (empty strings are falsy), then the matrix value
`matrix[b.length][a.length]`. -/
def levenshtein (a b : List Char) : Nat :=
  if a.isEmpty then b.length
  else if b.isEmpty then a.length
  else levMat a b b.length a.length

/-! ### `findBrandPositions` -/

/-- Word-character test at an index; out of range counts as non-word
(this is how `\b` treats the ends of the string). -/
def wordAt (s : List Char) (p : Nat) : Bool :=
  match s.get? p with
  | some c => isWordChar c
  | none => false

/-- JS regex `\b` at position `p` of `s`: exactly one of the character
before `p` and the character at `p` is a word character. -/
def boundaryB (s : List Char) (p : Nat) : Bool :=
  (decide (0 < p) && wordAt s (p - 1)) != wordAt s p

/-- The substring of `s` of length `len` starting at `p`. -/
def sliceAt (s : List Char) (p len : Nat) : List Char :=
  (s.drop p).take len

/-- `new RegExp('\\b' + escapeForRegex(brand) + '\\b', 'i').test(item)`:
after escaping, the pattern matches the literal brand, case-insensitively,
between two word boundaries. -/
def exactHit (brand item : List Char) : Bool :=
  (List.range (item.length + 1)).any fun p =>
    lower (sliceAt item p brand.length) == lower brand
    && boundaryB item p && boundaryB item (p + brand.length)

/-- `String.prototype.includes`: some suffix of `s` starts with `sub`. -/
def includes (s sub : List Char) : Bool :=
  (List.range (s.length + 1)).any fun p => sliceAt s p sub.length == sub

/-- `itemLower.includes(brandLower)`. -/
def substrHit (brand item : List Char) : Bool :=
  includes (lower item) (lower brand)

/-- `parseInt(digits, 10)` for a digit string. -/
def digitsToNat (ds : List Char) : Nat :=
  ds.foldl (fun acc c => acc * 10 + (c.toNat - '0'.toNat)) 0

/-- `item.match(/^\s*(\d+)[\.)]\s*/)`: optional leading whitespace, one or
more digits, then `'.'` or `')'`; yields the parsed rank. -/
def parseNumMarker (item : List Char) : Option Nat :=
  let rest := item.dropWhile isJsWs
  let ds := rest.takeWhile Char.isDigit
  if ds.isEmpty then none
  else
    match rest.drop ds.length with
    | c :: _ => if c = '.' || c = ')' then some (digitsToNat ds) else none
    | [] => none

/-- The fuzzy acceptance test of the token loop:
`dist = levenshtein(tokenLower, brandClean.toLowerCase())`,
`threshold = Math.max(1, Math.floor(brandClean.length * 0.25))`
(for naturals `floor(n * 0.25) = n / 4` exactly), accept when
`dist <= Math.max(2, threshold)`. -/
def fuzzyAccept (bc tok : List Char) : Bool :=
  let dist := levenshtein (lower tok) (lower bc)
  let threshold := max 1 (bc.length / 4)
  dist ≤ max 2 threshold

/-- The whole fuzzy step for one item: split into whitespace tokens, clean
each token, skip empty cleaned tokens (`if (!t) continue`), and accept the
item at the first qualifying token. -/
def fuzzyHit (bc item : List Char) : Bool :=
  ((splitWs item).map cleanTok).any fun t => !t.isEmpty && fuzzyAccept bc t

/-- One iteration of the `findBrandPositions` loop for `items[i]`, where
`idx1 = i + 1` and `rank` is the incoming `currentRank`.  Returns the
updated `currentRank` and the position pushed for this item, if any.
Exact and substring hits report the active positive rank instead of the
1-based index; the fuzzy step always reports the 1-based index. -/
def stepItem (brand bc item : List Char) (rank idx1 : Nat) : Nat × Option Nat :=
  let rank' := match parseNumMarker item with
    | some n => n
    | none => rank
  if exactHit brand item then (rank', some (if 0 < rank' then rank' else idx1))
  else if substrHit brand item then (rank', some (if 0 < rank' then rank' else idx1))
  else if fuzzyHit bc item then (rank', some idx1)
  else (rank', none)

/-- The item scan of `findBrandPositions`: `i` is the 0-based index of the
head item and `rank` the current `currentRank`. -/
def findBrandAux (brand bc : List Char) : List (List Char) → Nat → Nat → List Nat
  | [], _, _ => []
  | item :: rest, i, rank =>
    match stepItem brand bc item rank (i + 1) with
    | (rank', some p) => p :: findBrandAux brand bc rest (i + 1) rank'
    | (rank', none) => findBrandAux brand bc rest (i + 1) rank'

/-- `findBrandPositions(items, brand)`:
`brandClean = brand.toLowerCase().replace(/[^a-z0-9]/gi, '')`, then the
scan starting at index 0 with `currentRank = 0`. -/
def findBrandPositions (items : List (List Char)) (brand : List Char) : List Nat :=
  findBrandAux brand (cleanTok (lower brand)) items 0 0

/-! ### The controller's result assembly (`checkController.js`) -/

/-- The JSON fields `mentioned`, `positions`, `position` of the
`/api/check` response. -/
structure CheckResult where
  mentioned : List Char
  positions : List Nat
  position : Option Nat
  deriving DecidableEq, Repr

/-- `positions = findBrandPositions(items, brand)`;
`mentioned = positions.length > 0 ? "Yes" : "No"`;
`position = positions.length > 0 ? positions[0] : null`. -/
def checkResult (items : List (List Char)) (brand : List Char) : CheckResult :=
  let ps := findBrandPositions items brand
  { mentioned := if 0 < ps.length then "Yes".data else "No".data
    positions := ps
    position := if 0 < ps.length then ps.head? else none }

/-! ### JSON-ish dynamic values

`extractTextFromApiResponse` and the controller probe an untyped payload.
`JVal` models parsed-JSON values; `undefined` is modelled as
`Option JVal = none` at access sites.  Property access on `null` or
`undefined` raises a `TypeError` in JS; those computations live in
`Except Unit`. -/

inductive JVal where
  | null : JVal
  | bool : Bool → JVal
  | num : Int → JVal
  | str : List Char → JVal
  | arr : List JVal → JVal
  | obj : List (List Char × JVal) → JVal
  deriving Repr

/-- JS truthiness of a `JVal` (`NaN` aside, which JSON cannot carry). -/
def truthy : JVal → Bool
  | .null => false
  | .bool b => b
  | .num n => n ≠ 0
  | .str s => !s.isEmpty
  | .arr _ => true
  | .obj _ => true

/-- Truthiness with `undefined` (`none`) being falsy. -/
def truthyO : Option JVal → Bool
  | none => false
  | some v => truthy v

/-- `typeof v === 'string'`. -/
def isStringJ : JVal → Bool
  | .str _ => true
  | _ => false

def lookupField : List (List Char × JVal) → List Char → Option JVal
  | [], _ => none
  | (k, v) :: rest, key => if k = key then some v else lookupField rest key

/-! Field names probed by the source. -/

def kData : List Char := "data".data
def kOutputText : List Char := "output_text".data
def kOutput : List Char := "output".data
def kContent : List Char := "content".data
def kText : List Char := "text".data
def kChoices : List Char := "choices".data
def kMessage : List Char := "message".data
def kCandidates : List Char := "candidates".data
def kParts : List Char := "parts".data
def kResult : List Char := "result".data
def kLength : List Char := "length".data
def kZero : List Char := "0".data

/-- Property access `v[key]` for a non-index key: throws on `null`,
`undefined` on primitives and arrays, field lookup on objects. -/
def getField : JVal → List Char → Except Unit (Option JVal)
  | .null, _ => .error ()
  | .obj fs, key => .ok (lookupField fs key)
  | _, _ => .ok none

/-- Property access on a possibly-`undefined` value. -/
def getFieldO : Option JVal → List Char → Except Unit (Option JVal)
  | none, _ => .error ()
  | some v, key => getField v key

/-- The `.length` access: arrays and strings have a length, objects may
carry a `length` field, other primitives yield `undefined`. -/
def getLength : JVal → Except Unit (Option JVal)
  | .null => .error ()
  | .arr xs => .ok (some (.num xs.length))
  | .str s => .ok (some (.num s.length))
  | .obj fs => .ok (lookupField fs kLength)
  | _ => .ok none

/-- The `[0]` access used on `output`, `choices` and `candidates`. -/
def getIndex0 : JVal → Except Unit (Option JVal)
  | .null => .error ()
  | .arr xs => .ok xs.head?
  | .str s =>
    match s with
    | [] => .ok none
    | c :: _ => .ok (some (.str [c]))
  | .obj fs => .ok (lookupField fs kZero)
  | _ => .ok none

/-! ### Stringification

`JSON.stringify` and the string conversion `Array.prototype.join` applies
to its elements.  Both recurse through the nested `List JVal` via mutual
definitions (the list bodies join the rendered elements with commas). -/

/-- Decimal digits of an integer. -/
def intStr (n : Int) : List Char := (toString n).data

/-- `JSON.stringify` escaping for one string character. -/
def jsonEscChar (c : Char) : List Char :=
  if c = '"' then ['\\', '"']
  else if c = '\\' then ['\\', '\\']
  else if c = '\n' then ['\\', 'n']
  else if c = '\r' then ['\\', 'r']
  else if c = '\t' then ['\\', 't']
  else [c]

/-- A JSON string literal. -/
def jsonQuote (s : List Char) : List Char :=
  '"' :: (s.map jsonEscChar).flatten ++ ['"']

mutual

/-- `JSON.stringify(v)` (for the JSON-ish fragment `JVal` covers). -/
def jsonStringify : JVal → List Char
  | .null => "null".data
  | .bool b => if b then "true".data else "false".data
  | .num n => intStr n
  | .str s => jsonQuote s
  | .arr xs => '[' :: jsonArrBody xs ++ [']']
  | .obj fs => '\x7b' :: jsonObjBody fs ++ ['\x7d']

/-- Comma-joined array elements. -/
def jsonArrBody : List JVal → List Char
  | [] => []
  | [x] => jsonStringify x
  | x :: y :: ys => jsonStringify x ++ ',' :: jsonArrBody (y :: ys)

/-- Comma-joined `"key":value` fields. -/
def jsonObjBody : List (List Char × JVal) → List Char
  | [] => []
  | [(k, v)] => jsonQuote k ++ ':' :: jsonStringify v
  | (k, v) :: f :: fs => jsonQuote k ++ ':' :: jsonStringify v ++ ',' :: jsonObjBody (f :: fs)

end

mutual

/-- How `Array.prototype.join` renders one element: `null` (and
`undefined`) become empty, objects become `[object Object]`, nested
arrays are joined with commas. -/
def joinElemStr : JVal → List Char
  | .null => []
  | .bool b => if b then "true".data else "false".data
  | .num n => intStr n
  | .str s => s
  | .arr xs => joinElemArr xs
  | .obj _ => "[object Object]".data

/-- Comma-joined rendering of a nested array. -/
def joinElemArr : List JVal → List Char
  | [] => []
  | [x] => joinElemStr x
  | x :: y :: ys => joinElemStr x ++ ',' :: joinElemArr (y :: ys)

end

def joinElemStrO : Option JVal → List Char
  | none => []
  | some v => joinElemStr v

/-- `values.join('\n')` as applied to the part values collected by
`extractTextFromApiResponse`. -/
def joinNl : List (Option JVal) → List Char
  | [] => []
  | [v] => joinElemStrO v
  | v :: w :: ws => joinElemStrO v ++ '\n' :: joinNl (w :: ws)

/-! ### `extractTextFromApiResponse`

The `try` body of the source, as a computation in `Except Unit`; the
surrounding `catch (e) { return ''; }` is the final wrapper. -/

/-- `const data = resp.data || resp;` (for truthy `resp`). -/
def dataOf (resp : JVal) : Except Unit JVal := do
  let rd ← getField resp kData
  match rd with
  | some v => if truthy v then pure v else pure resp
  | none => pure resp

/-- `if (data.output_text) return data.output_text;` — yields the value to
return, if this probe fires. -/
def probeOutputText (data : JVal) : Except Unit (Option JVal) := do
  let ot ← getField data kOutputText
  match ot with
  | some v => if truthy v then pure (some v) else pure none
  | none => pure none

/-- The callback `c => (c.text || c)` of the part join. -/
def partOrText (c : JVal) : Except Unit JVal := do
  let t ← getField c kText
  match t with
  | some tv => if truthy tv then pure tv else pure c
  | none => pure c

/-- `o.content.map(c => (c.text || c))`, left to right. -/
def mapPartOrText : List JVal → Except Unit (List JVal)
  | [] => pure []
  | c :: cs => do
    let v ← partOrText c
    let rest ← mapPartOrText cs
    pure (v :: rest)

/-- The `data.output` probe: fires only when `output` is a non-empty
array.  A string first entry is returned as is; otherwise, a truthy
`content` is returned when it is a string, or joined with newlines when it
is an array of parts; any other shape falls through. -/
def probeOutput (data : JVal) : Except Unit (Option JVal) := do
  let out ← getField data kOutput
  match out with
  | some (.arr (o :: _)) =>
    match o with
    | .str s => pure (some (.str s))
    | _ => do
      let oc ← getField o kContent
      match oc with
      | some c =>
        if truthy c then
          match c with
          | .str cs => pure (some (.str cs))
          | .arr parts => do
            let vals ← mapPartOrText parts
            pure (some (.str (joinNl (vals.map some))))
          | _ => pure none
        else pure none
      | none => pure none
  | _ => pure none

/-- `if (ch.message && ch.message.content) return ch.message.content;`. -/
def probeChoiceMsg (ch : Option JVal) : Except Unit (Option JVal) := do
  let m ← getFieldO ch kMessage
  match m with
  | some mv =>
    if truthy mv then do
      let mc ← getField mv kContent
      match mc with
      | some mcv => if truthy mcv then pure (some mcv) else pure none
      | none => pure none
    else pure none
  | none => pure none

/-- The `data.choices` probe: guarded by `data.choices &&
data.choices.length`; prefers `choices[0].text`, then
`choices[0].message.content`. -/
def probeChoices (data : JVal) : Except Unit (Option JVal) := do
  let cho ← getField data kChoices
  match cho with
  | some chv =>
    if truthy chv then do
      let len ← getLength chv
      if truthyO len then do
        let ch ← getIndex0 chv
        let t ← getFieldO ch kText
        match t with
        | some tv => if truthy tv then pure (some tv) else probeChoiceMsg ch
        | none => probeChoiceMsg ch
      else pure none
    else pure none
  | none => pure none

/-- The `try` body of `extractTextFromApiResponse`: falsy input yields
`''`; a string `data` is returned unchanged; then the `output_text`,
`output` and `choices` probes in order; finally `JSON.stringify(data)`. -/
def extractBody (resp : JVal) : Except Unit JVal := do
  if !truthy resp then pure (.str [])
  else do
    let data ← dataOf resp
    match data with
    | .str s => pure (.str s)
    | _ => do
      match (← probeOutputText data) with
      | some v => pure v
      | none =>
        match (← probeOutput data) with
        | some v => pure v
        | none =>
          match (← probeChoices data) with
          | some v => pure v
          | none => pure (.str (jsonStringify data))

/-- `extractTextFromApiResponse(resp)`: the `try` body with
`catch (e) { return ''; }`. -/
def extractTextFromApiResponse (resp : JVal) : JVal :=
  match extractBody resp with
  | .ok v => v
  | .error _ => .str []

/-! ### The controller's text extraction (`checkController.js`)

The success path of `exports.check` inspects the axios response before
delegating to `extractTextFromApiResponse`; in particular the provider's
`candidates` shape is handled here, not in the normalizer. -/

def cannedFallback : List Char := "No clear brand mentions found.".data

/-- `candidate.content.parts.filter(p => p.text)`. -/
def filterTruthyText : List JVal → Except Unit (List JVal)
  | [] => pure []
  | p :: ps => do
    let t ← getField p kText
    let rest ← filterTruthyText ps
    if truthyO t then pure (p :: rest) else pure rest

/-- `.map(p => p.text)` on the kept parts (the field may be absent). -/
def mapTextField : List JVal → Except Unit (List (Option JVal))
  | [] => pure []
  | p :: ps => do
    let t ← getField p kText
    let rest ← mapTextField ps
    pure (t :: rest)

/-- The last-resort assignment of the candidates branch:
`text = candidate.text || candidate.output || JSON.stringify(candidate);`
(`c0` is `some` whenever this runs, since earlier accesses succeeded). -/
def candLastResort (c0 : Option JVal) : Except Unit JVal := do
  let t ← getFieldO c0 kText
  if truthyO t then pure (t.getD .null)
  else do
    let o ← getFieldO c0 kOutput
    if truthyO o then pure (o.getD .null)
    else pure (.str (jsonStringify (c0.getD .null)))

/-- The `else if (candidate.content)` tail: a string content is returned
unchanged, a truthy `content.text` is preferred, and otherwise the content
is stringified. -/
def candContentTail (c0 : Option JVal) (content : Option JVal) : Except Unit JVal := do
  match content with
  | some cv =>
    if truthy cv then
      match cv with
      | .str s => pure (.str s)
      | _ => do
        let ct ← getField cv kText
        if truthyO ct then pure (ct.getD .null)
        else pure (.str (jsonStringify cv))
    else candLastResort c0
  | none => candLastResort c0

/-- The candidates branch of the controller, with
`c0 = d.candidates[0]`.  When `candidate.content.parts` is a truthy value
with truthy length, the parts are filtered to those with truthy `text`,
mapped to their `text` fields and joined with newlines (a non-array in
that position would make `.filter` throw); otherwise the
`candidate.text` / `candidate.output` / `candidate.content` chain runs. -/
def candBranch (c0 : Option JVal) : Except Unit JVal := do
  let content ← getFieldO c0 kContent
  let partsG ← (match content with
    | some cv =>
      if truthy cv then do
        let parts ← getField cv kParts
        match parts with
        | some pv =>
          if truthy pv then do
            let plen ← getLength pv
            if truthyO plen then pure (some pv) else pure none
          else pure none
        | none => pure none
      else pure none
    | none => pure none)
  match partsG with
  | some (.arr ps) => do
    let kept ← filterTruthyText ps
    let texts ← mapTextField kept
    pure (.str (joinNl texts))
  | some _ => Except.error ()
  | none => do
    let t ← getFieldO c0 kText
    if truthyO t then pure (t.getD .null)
    else do
      let o ← getFieldO c0 kOutput
      if truthyO o then pure (o.getD .null)
      else candContentTail c0 content

/-- `else if (d.result && d.result.output) text = d.result.output;
else text = extractTextFromApiResponse(apiResp);`. -/
def afterCand (d apiResp : JVal) : Except Unit JVal := do
  let r ← getField d kResult
  match r with
  | some rv =>
    if truthy rv then do
      let ro ← getField rv kOutput
      match ro with
      | some rov =>
        if truthy rov then pure rov
        else pure (extractTextFromApiResponse apiResp)
      | none => pure (extractTextFromApiResponse apiResp)
    else pure (extractTextFromApiResponse apiResp)
  | none => pure (extractTextFromApiResponse apiResp)

/-- The text determination of the controller's success path
(`exports.check`): `if (apiResp && apiResp.data) { const d = apiResp.data;
if (d.candidates && d.candidates.length) {...} else if (...) {...} else
{ text = extractTextFromApiResponse(apiResp); } } else
{ text = cannedFallback; }`.  An `Except.error` models a thrown
`TypeError` reaching the controller's outer `catch`. -/
def controllerExtract (apiResp : JVal) : Except Unit JVal := do
  if truthy apiResp then do
    let rd ← getField apiResp kData
    match rd with
    | some d =>
      if truthy d then do
        let cand ← getField d kCandidates
        match cand with
        | some cv =>
          if truthy cv then do
            let len ← getLength cv
            if truthyO len then do
              let c0 ← getIndex0 cv
              candBranch c0
            else afterCand d apiResp
          else afterCand d apiResp
        | none => afterCand d apiResp
      else pure (.str cannedFallback)
    | none => pure (.str cannedFallback)
  else pure (.str cannedFallback)

/-! ### Concrete inputs used by the verification -/

/-- A provider payload in the generative-content (`candidates`) shape,
whose only part carries the text `"hi"`. -/
def candParts : List JVal := [.obj [(kText, .str ("hi".data))]]

def candPayload : JVal :=
  .obj [(kCandidates, .arr [.obj [(kContent, .obj [(kParts, .arr candParts)])]])]

/-- A payload whose `output_text` field is the (truthy) number `5`. -/
def outputTextNumPayload : JVal := .obj [(kOutputText, .num 5)]

/-! ## Helper lemmas -/

theorem subCost_comm (a b : List Char) (i j : Nat) : subCost a b i j = subCost b a j i := by
  unfold subCost
  by_cases h : (a.getD i ' ').toLower = (b.getD j ' ').toLower
  · rw [if_pos h, if_pos h.symm]
  · rw [if_neg h, if_neg fun hh => h hh.symm]

theorem levMat_succ_succ (a b : List Char) (j i : Nat) :
    levMat a b (j + 1) (i + 1) =
      min (levMat a b (j + 1) i + 1)
        (min (levMat a b j (i + 1) + 1) (levMat a b j i + subCost a b i j)) := rfl

/-- The transposed matrix of the swapped inputs has the same entries. -/
theorem levMat_symm (a b : List Char) : ∀ j i, levMat a b j i = levMat b a i j := by
  intro j
  induction j with
  | zero => intro i; cases i <;> rfl
  | succ j ihj =>
    intro i
    induction i with
    | zero => rfl
    | succ i ihi =>
      rw [levMat_succ_succ, levMat_succ_succ, ihi, ihj (i + 1), ihj i, subCost_comm]
      omega

theorem levenshtein_symm (a b : List Char) : levenshtein a b = levenshtein b a := by
  unfold levenshtein
  by_cases ha : a.isEmpty <;> by_cases hb : b.isEmpty <;>
    simp [ha, hb, List.isEmpty_iff.mp, levMat_symm a b]

theorem levenshtein_nil_left (s : List Char) : levenshtein [] s = s.length := rfl

theorem levenshtein_nil_right (s : List Char) : levenshtein s [] = s.length := by
  cases s <;> rfl

/-! ## The claims -/

/-- C9: the `levenshtein` of `brandUtils.js` is symmetric, and its
distance to the empty string is the other string's length. -/
theorem c9_levenshtein_symm_and_nil :
    (∀ a b : List Char, levenshtein a b = levenshtein b a) ∧
    (∀ s : List Char, levenshtein [] s = s.length) :=
  ⟨levenshtein_symm, levenshtein_nil_left⟩

/-- C4: the fuzzy acceptance threshold of `findBrandPositions` — the code's
`dist <= Math.max(2, Math.max(1, Math.floor(brandClean.length * 0.25)))` —
equals `max 2 (floor(len(cleaned_brand) * 0.25))`; for brand `"Acme"`
(cleaned length 4) the token `"Acne"` has edit distance 1, the threshold is
2, and the token (hence the item) is accepted as a fuzzy match. -/
theorem c4_fuzzy_threshold :
    (∀ bc tok : List Char,
      fuzzyAccept bc tok =
        decide (levenshtein (lower tok) (lower bc) ≤ max 2 (bc.length / 4))) ∧
    levenshtein ("acne".data) ("acme".data) = 1 ∧
    max 2 ((cleanTok (lower ("Acme".data))).length / 4) = 2 ∧
    fuzzyAccept (cleanTok (lower ("Acme".data))) ("Acne".data) = true ∧
    findBrandPositions [("Acne".data)] ("Acme".data) = [1] := by
  refine ⟨fun bc tok => ?_, by decide, by decide, by decide, by decide⟩
  show decide _ = decide _
  exact decide_eq_decide.mpr (by omega)

/-- C5: numbered-list rank carry-over — `"1. Acme Corp"` records rank 1,
`"2. Other Co"` sets `currentRank = 2` without matching, and the unranked
`"Acme again"` records the carried-over rank 2, not its index 3. -/
theorem c5_rank_carry_over :
    findBrandPositions
      [("1. Acme Corp".data), ("2. Other Co".data), ("Acme again".data)]
      ("Acme".data) = [1, 2] := by
  decide

/-- C6: the match result satisfies `mentioned = "Yes"` (the code's rendering
of true) iff `positions` is non-empty, `position` is the first element of
`positions` when non-empty and absent (`none`, the code's `null`)
otherwise, and an empty item sequence yields `mentioned = "No"` with empty
`positions`. -/
theorem c6_match_result (items : List (List Char)) (brand : List Char) :
    ((checkResult items brand).mentioned = "Yes".data ↔ (checkResult items brand).positions ≠ []) ∧
    (checkResult items brand).position = (checkResult items brand).positions.head? ∧
    checkResult [] brand = ⟨"No".data, [], none⟩ := by
  refine ⟨?_, ?_, rfl⟩ <;>
  · simp only [checkResult]
    cases h : findBrandPositions items brand <;> simp [h]

/-- Each loop iteration of `findBrandPositions` pushes at most one
position (each branch that records also `continue`s/`break`s), so the scan
yields at most one position per item. -/
theorem findBrandAux_length_le (brand bc : List Char) :
    ∀ (items : List (List Char)) (i rank : Nat),
      (findBrandAux brand bc items i rank).length ≤ items.length := by
  intro items
  induction items with
  | nil => intro i rank; simp [findBrandAux]
  | cons item rest ih =>
    intro i rank
    rcases hs : stepItem brand bc item rank (i + 1) with ⟨rank', posO⟩
    cases posO with
    | none => simpa [findBrandAux, hs] using Nat.le_succ_of_le (ih (i + 1) rank')
    | some p => simpa [findBrandAux, hs] using Nat.succ_le_succ (ih (i + 1) rank')

/-- C10: every item contributes at most one entry to `positions`, however
many ways the brand occurs in it, so `positions` is never longer than the
item list. -/
theorem c10_at_most_one_per_item (items : List (List Char)) (brand : List Char) :
    (findBrandPositions items brand).length ≤ items.length :=
  findBrandAux_length_le brand (cleanTok (lower brand)) items 0 0

/-- When no item carries a numbered-list marker, `currentRank` stays 0 and
every recorded position is the item's 1-based index, so the scan from
index `i` yields a strictly increasing list of positions greater than
`i`. -/
theorem findBrandAux_ascending (brand bc : List Char) :
    ∀ (items : List (List Char)) (i : Nat),
      (∀ item ∈ items, parseNumMarker item = none) →
      (∀ p ∈ findBrandAux brand bc items i 0, i < p) ∧
      List.Chain' (· < ·) (findBrandAux brand bc items i 0) := by
  intro items
  induction items with
  | nil => intro i _; simp [findBrandAux]
  | cons item rest ih =>
    intro i hm
    have hitem : parseNumMarker item = none := hm item (List.mem_cons_self _ _)
    have hrest : ∀ it ∈ rest, parseNumMarker it = none :=
      fun it hit => hm it (List.mem_cons_of_mem _ hit)
    obtain ⟨hall, hch⟩ := ih (i + 1) hrest
    have hstep : stepItem brand bc item 0 (i + 1) = (0, some (i + 1)) ∨
        stepItem brand bc item 0 (i + 1) = (0, none) := by
      simp only [stepItem, hitem]
      by_cases he : exactHit brand item <;> by_cases hsu : substrHit brand item <;>
        by_cases hf : fuzzyHit bc item <;> simp [he, hsu, hf]
    rcases hstep with hstep | hstep
    · refine ⟨?_, ?_⟩
      · intro p hp
        simp only [findBrandAux, hstep] at hp
        rcases List.mem_cons.mp hp with rfl | hp
        · omega
        · exact Nat.lt_of_succ_lt (hall p hp)
      · simp only [findBrandAux, hstep]
        exact List.Chain'.cons' hch (fun y hy => hall y (List.mem_of_mem_head? hy))
    · refine ⟨?_, ?_⟩
      · intro p hp
        simp only [findBrandAux, hstep] at hp
        exact Nat.lt_of_succ_lt (hall p hp)
      · simp only [findBrandAux, hstep]
        exact hch

/-- C3 (amended): `positions` is ascending (indeed strictly increasing)
whenever no item carries a leading numbered-list marker; with markers the
reported ranks are taken from the text and need not be ascending. -/
theorem c3_amended_ascending (items : List (List Char)) (brand : List Char)
    (h : ∀ item ∈ items, parseNumMarker item = none) :
    List.Chain' (· < ·) (findBrandPositions items brand) :=
  (findBrandAux_ascending brand (cleanTok (lower brand)) items 0 h).2

/-- C3 (counterexample): for items `["2. Acme", "1. Acme"]` and brand
`"Acme"` the scan reports the textual ranks `[2, 1]`, which is not
ascending. -/
theorem c3_counterexample :
    ¬ List.Chain' (· ≤ ·)
      (findBrandPositions [("2. Acme".data), ("1. Acme".data)] ("Acme".data)) := by
  intro hch
  have h : findBrandPositions [("2. Acme".data), ("1. Acme".data)] ("Acme".data) = [2, 1] := by
    decide
  rw [h] at hch
  exact absurd (List.chain'_cons.mp hch).1 (by decide)

/-- C3 (witness): the amended theorem at the marker-free item list
`["Acme Corp"]`. -/
theorem c3_amended_witness :
    (∀ item ∈ [("Acme Corp".data)], parseNumMarker item = none) ∧
    List.Chain' (· < ·) (findBrandPositions [("Acme Corp".data)] ("Acme".data)) :=
  ⟨by decide, c3_amended_ascending _ _ (by decide)⟩

/-- C1 (counterexample): brand `"!!"` cleans to the empty string, yet for
the item `"xy"` the exact and substring steps fail and the fuzzy step
fires (distance to the empty brand is the token length 2, within the
threshold 2), recording position 1 — the fuzzy step is not disabled. -/
theorem c1_counterexample :
    cleanTok (lower ("!!".data)) = [] ∧
    exactHit ("!!".data) ("xy".data) = false ∧
    substrHit ("!!".data) ("xy".data) = false ∧
    fuzzyHit [] ("xy".data) = true ∧
    findBrandPositions [("xy".data)] ("!!".data) = [1] := by
  decide

/-- Against the empty cleaned brand, the fuzzy step accepts exactly the
tokens whose cleaned form is non-empty of length at most 2: the distance
to the empty string is the token's length and the threshold is
`max 2 (max 1 0) = 2`. -/
theorem fuzzyHit_nil_brand (item : List Char) :
    fuzzyHit [] item =
      ((splitWs item).map cleanTok).any fun t => !t.isEmpty && decide (t.length ≤ 2) := by
  unfold fuzzyHit
  congr 1
  funext t
  rcases t with _ | ⟨c, ts⟩
  · rfl
  · have h1 : levenshtein (lower (c :: ts)) (lower []) = (c :: ts).length := by
      have h2 := levenshtein_nil_right (lower (c :: ts))
      simpa [lower] using h2
    simp [fuzzyAccept, h1]

/-- C1 (amended): for a brand whose cleaned form is empty the fuzzy step
is NOT disabled; it accepts precisely the tokens whose cleaned form is
non-empty with length at most 2 (tokens cleaning to the empty string are
skipped by `if (!t) continue`). -/
theorem c1_amended_empty_brand (brand item : List Char)
    (h : cleanTok (lower brand) = []) :
    fuzzyHit (cleanTok (lower brand)) item =
      ((splitWs item).map cleanTok).any fun t => !t.isEmpty && decide (t.length ≤ 2) := by
  rw [h, fuzzyHit_nil_brand]

/-- C1 (witness): the amended theorem at brand `"!!"` and item `"xy"`. -/
theorem c1_amended_witness :
    cleanTok (lower ("!!".data)) = [] ∧
    fuzzyHit (cleanTok (lower ("!!".data))) ("xy".data) =
      ((splitWs ("xy".data)).map cleanTok).any fun t => !t.isEmpty && decide (t.length ≤ 2) :=
  ⟨by decide, c1_amended_empty_brand _ _ (by decide)⟩

/-- C7: when the line-break split leaves at most one trimmed non-empty
line, `splitIntoItems` re-splits the original text on
commas/semicolons/line breaks, trims and drops empties; in particular
`"Acme, Globex, Initech"` segments into exactly three items and the empty
text into none. -/
theorem c7_segmentation (text : List Char)
    (h : (lineItems text).length ≤ 1) :
    splitIntoItems text = commaItems text ∧
    splitIntoItems ("Acme, Globex, Initech".data) =
      [("Acme".data), ("Globex".data), ("Initech".data)] ∧
    splitIntoItems [] = [] := by
  refine ⟨?_, by decide, rfl⟩
  unfold splitIntoItems
  by_cases ht : text.isEmpty
  · rw [List.isEmpty_iff.mp ht]
    decide
  · simp [ht, h]

/-- C7 (witness): the theorem at the single-line comma-separated text. -/
theorem c7_witness :
    (lineItems ("Acme, Globex, Initech".data)).length ≤ 1 ∧
    splitIntoItems ("Acme, Globex, Initech".data) =
      commaItems ("Acme, Globex, Initech".data) :=
  ⟨by decide, (c7_segmentation _ (by decide)).1⟩

/-! Small reduction lemmas for the `Except Unit` computations. -/

theorem exceptPureBind {α β : Type} (a : α) (f : α → Except Unit β) :
    (pure a : Except Unit α) >>= f = f a := rfl

theorem exceptBindOk {α β : Type} (a : α) (f : α → Except Unit β) :
    (Except.ok a : Except Unit α) >>= f = f a := rfl

theorem truthyO_some (v : JVal) : truthyO (some v) = truthy v := rfl

theorem truthy_arr (xs : List JVal) : truthy (.arr xs) = true := rfl

theorem truthy_len_cons (x : JVal) (xs : List JVal) :
    truthy (.num ((x :: xs).length : Int)) = true := by
  simp [truthy]
  omega

theorem getLength_arr (xs : List JVal) : getLength (.arr xs) = .ok (some (.num xs.length)) := rfl

theorem getIndex0_arr (xs : List JVal) : getIndex0 (.arr xs) = .ok xs.head? := rfl

theorem getFieldO_some (v : JVal) (k : List Char) : getFieldO (some v) k = getField v k := rfl

/-- C2 (counterexample): on a `candidates`-shaped payload whose single
part carries the text `"hi"`, `extractTextFromApiResponse` does not return
that join — it probes no `candidates` field and falls through to
`JSON.stringify`. -/
theorem c2_counterexample :
    extractTextFromApiResponse candPayload ≠ .str ("hi".data) := by
  intro h
  have h1 : extractTextFromApiResponse candPayload = .str (jsonStringify candPayload) := rfl
  rw [h1] at h
  exact absurd (JVal.str.inj h) (by decide)

/-- C2 (amended): the candidate-list extraction lives in the controller's
`check` flow, not in `extractTextFromApiResponse`.  For every response
whose `data` exposes a non-empty `candidates` array whose first candidate
carries truthy `content` with a non-empty `parts` array, the controller's
text extraction filters the parts to those with a truthy (non-empty)
`text` field, maps them to those fields and joins with newlines. -/
theorem c2_amended_controller (apiResp d content c0 p0 : JVal)
    (crest prest kept : List JVal) (texts : List (Option JVal))
    (h0 : truthy apiResp = true)
    (h1 : getField apiResp kData = .ok (some d))
    (h2 : truthy d = true)
    (h3 : getField d kCandidates = .ok (some (.arr (c0 :: crest))))
    (h4 : getField c0 kContent = .ok (some content))
    (h5 : truthy content = true)
    (h6 : getField content kParts = .ok (some (.arr (p0 :: prest))))
    (h7 : filterTruthyText (p0 :: prest) = .ok kept)
    (h8 : mapTextField kept = .ok texts) :
    controllerExtract apiResp = .ok (.str (joinNl texts)) := by
  unfold controllerExtract
  rw [h0]
  simp only [if_true, h1, exceptBindOk, h2, h3, truthy_arr, getLength_arr,
    truthyO_some, truthy_len_cons, getIndex0_arr, List.head?_cons]
  unfold candBranch
  simp only [getFieldO_some, h4, exceptBindOk, h5, if_true, h6, truthy_arr,
    getLength_arr, truthyO_some, truthy_len_cons, exceptPureBind, h7, h8]
  rfl

/-- C2 (witness): the amended theorem at the concrete `candidates`
payload; the join of the single part is `"hi"`. -/
theorem c2_amended_witness :
    controllerExtract (.obj [(kData, candPayload)]) = .ok (.str ("hi".data)) :=
  c2_amended_controller (.obj [(kData, candPayload)]) candPayload
    (.obj [(kParts, .arr candParts)]) (.obj [(kContent, .obj [(kParts, .arr candParts)])])
    (.obj [(kText, .str ("hi".data))]) [] [] candParts [some (.str ("hi".data))]
    rfl rfl rfl rfl rfl rfl rfl rfl rfl

/-- C8 (counterexample): the payload `{output_text: 5}` makes
`extractTextFromApiResponse` return the number 5 itself — the probed field
value is returned as is, so the result is not always a string. -/
theorem c8_counterexample :
    extractTextFromApiResponse outputTextNumPayload = .num 5 ∧
    isStringJ (extractTextFromApiResponse outputTextNumPayload) = false :=
  ⟨rfl, rfl⟩

/-- When no probe fires, the `try` body ends in `JSON.stringify(data)`. -/
theorem extractBody_stringify (resp data : JVal) (h0 : truthy resp = true)
    (h1 : dataOf resp = .ok data) (h2 : isStringJ data = false)
    (h3 : probeOutputText data = .ok none) (h4 : probeOutput data = .ok none)
    (h5 : probeChoices data = .ok none) :
    extractBody resp = .ok (.str (jsonStringify data)) := by
  unfold extractBody
  rw [h0]
  simp only [Bool.not_true, Bool.false_eq_true, if_false, h1, exceptBindOk]
  cases data with
  | str s => simp [isStringJ] at h2
  | null => simp only [h3, h4, h5, exceptBindOk]; rfl
  | bool b => simp only [h3, h4, h5, exceptBindOk]; rfl
  | num n => simp only [h3, h4, h5, exceptBindOk]; rfl
  | arr xs => simp only [h3, h4, h5, exceptBindOk]; rfl
  | obj fs => simp only [h3, h4, h5, exceptBindOk]; rfl

/-- C8 (amended): `extractTextFromApiResponse` never propagates an
exception — an internal throw yields the empty string — and a truthy input
matching none of the recognized probes normalizes to the full stringified
form of `data`; but the returned value is the probed field's value as is,
which need not be a string (see the counterexample). -/
theorem c8_amended_normalizer :
    (∀ resp, extractBody resp = .error () → extractTextFromApiResponse resp = .str []) ∧
    (∀ resp data, truthy resp = true → dataOf resp = .ok data → isStringJ data = false →
      probeOutputText data = .ok none → probeOutput data = .ok none →
      probeChoices data = .ok none →
      extractTextFromApiResponse resp = .str (jsonStringify data)) := by
  constructor
  · intro resp h
    unfold extractTextFromApiResponse
    rw [h]
  · intro resp data h0 h1 h2 h3 h4 h5
    unfold extractTextFromApiResponse
    rw [extractBody_stringify resp data h0 h1 h2 h3 h4 h5]

/-- C8 (witness): a payload whose `output[0]` is `null` makes the body
throw (`o.content` on `null`) and the function return `''`; a payload
matching no probe is stringified whole. -/
theorem c8_amended_witness :
    extractTextFromApiResponse (.obj [(kOutput, .arr [.null])]) = .str [] ∧
    extractTextFromApiResponse (.obj [(kResult, .num 1)]) =
      .str (jsonStringify (.obj [(kResult, .num 1)])) :=
  ⟨c8_amended_normalizer.1 _ rfl, c8_amended_normalizer.2 _ _ rfl rfl rfl rfl rfl rfl⟩

end BrandChecker
